import Mathlib

/-!
Verification of `s2p.go`, the random-symbol picture generator.

A shallow embedding of `DrawPicture` from `edirect/s2p.go` and of the closures it
declares (`nextColor`, `randRange`, `nextPoint`, `drawObject`).

Modelling conventions.

* The drawing context `dc` of the imported `gg` package is observed through the
  sequence of method calls issued on it: every function that draws returns the
  list of `Op`s it issued, in program order.
* The process-wide random source is a stream `rand : Nat → ℚ`; `rand n` is the
  value of the `n`-th call of `rand.Float32()` (after the optional re-seeding, which
  only selects another stream).  The number of draws already taken is part of the
  program state.
* Floating-point values are the rational numbers they denote, and every
  floating-point operation is the exact operation followed by IEEE 754 rounding to
  nearest, ties to even, at the precision of its type (`roundF32`, `roundF64`).
  All magnitudes of this program are below `2^10`, so overflow to infinity does
  not arise and the exponent range is left unbounded above.  Conversions
  `float64(x)` of a `float32` are exact.
* Go permits an implementation to fuse `x*y + z` into one operation with a single
  rounding; the flag `fused` selects that behaviour, and every result is proved
  for both values of the flag.
* Go `int` values are integers; `%` is the truncating remainder `Int.tmod`.
-/

namespace S2P

/-! ## Constants of `DrawPicture` -/

/-- Constant `picWidth`. -/
def picWidth : Int := 900

/-- Constant `picHeight`. -/
def picHeight : Int := 600

/-- Constant `maxEdge`. -/
def maxEdge : Int := 50

/-- The slice `colorTriplets`, 63 channel values. -/
def colorTriplets : List ℚ :=
  [ 64, 128, 192, 255, 192,  64,  64, 128, 255,  64, 192, 128, 255, 128,  64,
    192,  64, 128,  64, 255, 128, 128,  64, 192,  64, 255, 192, 255,  64, 192,
    128,  64, 255, 128, 192,  64, 128, 192, 255, 169, 196, 181, 192,  64, 255,
    192, 128,  64, 255,  64, 128, 192, 128, 255, 214, 198, 222, 255, 128, 192,
    255, 192, 128 ]

/-! ## Calls issued on the drawing context -/

/-- One method call on the drawing context `dc`, with its arguments. -/
inductive Op where
  | Push
  | Pop
  | SetFontFace (size : ℚ)
  | SetRGB (r g b : ℚ)
  | SetRGBA (r g b a : ℚ)
  | SetLineWidth (lineWidth : ℚ)
  | DrawStringAnchored (s : String) (x y ax ay : ℚ)
  | DrawRectangle (x y w h : ℚ)
  | DrawCircle (x y r : ℚ)
  | RotateAbout (angle x y : ℚ)
  | DrawEllipse (x y rx ry : ℚ)
  | DrawLine (x1 y1 x2 y2 : ℚ)
  | Stroke
  | Fill
  | SavePNG (path : String)
  deriving DecidableEq, Repr

/-- The four kinds of shape primitive. -/
inductive Kind where
  | rectangle
  | circle
  | ellipse
  | line
  deriving DecidableEq, Repr

namespace Op

/-- The kind of a shape primitive; `none` for every other call. -/
def kind : Op → Option Kind
  | DrawRectangle _ _ _ _ => some Kind.rectangle
  | DrawCircle _ _ _ => some Kind.circle
  | DrawEllipse _ _ _ _ => some Kind.ellipse
  | DrawLine _ _ _ _ => some Kind.line
  | _ => none

/-- Shape primitives: `DrawRectangle`, `DrawCircle`, `DrawEllipse`, `DrawLine`. -/
def isShape (o : Op) : Bool := o.kind.isSome

/-- Paint operations: `Fill` and `Stroke`. -/
def isPaint : Op → Bool
  | Fill => true
  | Stroke => true
  | _ => false

/-- State-stack operations: `Push` and `Pop`. -/
def isStack : Op → Bool
  | Push => true
  | Pop => true
  | _ => false

/-- The colour channels `(r, g, b)` a call sets, if it sets the paint colour. -/
def rgb : Op → Option (ℚ × ℚ × ℚ)
  | SetRGB r g b => some (r, g, b)
  | SetRGBA r g b _ => some (r, g, b)
  | _ => none

/-- Every colour channel set by the call lies in `[lo, hi]`. -/
def channelsIn (lo hi : ℚ) (o : Op) : Prop :=
  ∀ c ∈ o.rgb, (lo ≤ c.1 ∧ c.1 ≤ hi) ∧ (lo ≤ c.2.1 ∧ c.2.1 ≤ hi) ∧ (lo ≤ c.2.2 ∧ c.2.2 ≤ hi)

/-- The unrotated geometry of a shape primitive lies in `[0, W] × [0, H]`:
the rectangle `[x, x+w] × [y, y+h]`, the circle of centre `(x, y)` and radius `r`,
the ellipse of centre `(x, y)` and radii `rx`, `ry`, both endpoints of a line. -/
def withinCanvas (W H : ℚ) : Op → Prop
  | DrawRectangle x y w h => (0 ≤ x ∧ x + w ≤ W) ∧ (0 ≤ y ∧ y + h ≤ H)
  | DrawCircle x y r => (0 ≤ x - r ∧ x + r ≤ W) ∧ (0 ≤ y - r ∧ y + r ≤ H)
  | DrawEllipse x y rx ry => (0 ≤ x - rx ∧ x + rx ≤ W) ∧ (0 ≤ y - ry ∧ y + ry ≤ H)
  | DrawLine x1 y1 x2 y2 => ((0 ≤ x1 ∧ x1 ≤ W) ∧ (0 ≤ y1 ∧ y1 ≤ H)) ∧
      ((0 ≤ x2 ∧ x2 ≤ W) ∧ (0 ≤ y2 ∧ y2 ≤ H))
  | _ => True

/-- The anchor of a shape lies in `[50, 800) × [50, 500)` and its extents (width and
height, radius, radii) in `[5, 50)`; for a line the second endpoint lies in the
same band as the anchor. -/
def inBand : Op → Prop
  | DrawRectangle x y w h =>
      ((50 ≤ x ∧ x < 800) ∧ (50 ≤ y ∧ y < 500)) ∧ ((5 ≤ w ∧ w < 50) ∧ (5 ≤ h ∧ h < 50))
  | DrawCircle x y r => ((50 ≤ x ∧ x < 800) ∧ (50 ≤ y ∧ y < 500)) ∧ (5 ≤ r ∧ r < 50)
  | DrawEllipse x y rx ry =>
      ((50 ≤ x ∧ x < 800) ∧ (50 ≤ y ∧ y < 500)) ∧ ((5 ≤ rx ∧ rx < 50) ∧ (5 ≤ ry ∧ ry < 50))
  | DrawLine x1 y1 x2 y2 =>
      ((50 ≤ x1 ∧ x1 < 800) ∧ (50 ≤ y1 ∧ y1 < 500)) ∧
      ((50 ≤ x2 ∧ x2 < 800) ∧ (50 ≤ y2 ∧ y2 < 500))
  | _ => True

end Op

/-! ## Floating-point rounding -/

/-- Round to the nearest integer, ties to the even one. -/
def roundHalfEven (q : ℚ) : Int :=
  let f := ⌊q⌋
  if q - f < 1 / 2 then f
  else if 1 / 2 < q - f then f + 1
  else if f % 2 = 0 then f else f + 1

/-- Exponent of the unit in the last place of `x` in a binary format with `p`
significand bits whose least positive (subnormal) value is `2^emin`. -/
def ulpExp (p : Nat) (emin : Int) (x : ℚ) : Int :=
  max (Int.log 2 |x| - ((p : Int) - 1)) emin

/-- IEEE 754 rounding to nearest, ties to even: the multiple of the unit in the last
place of `x` nearest to `x`. -/
def roundFloat (p : Nat) (emin : Int) (x : ℚ) : ℚ :=
  (roundHalfEven (x / 2 ^ ulpExp p emin x) : ℚ) * 2 ^ ulpExp p emin x

/-- Rounding to `float32`: 24 significand bits, least positive value `2^(-149)`. -/
def roundF32 (x : ℚ) : ℚ := roundFloat 24 (-149) x

/-- Rounding to `float64`: 53 significand bits, least positive value `2^(-1074)`. -/
def roundF64 (x : ℚ) : ℚ := roundFloat 53 (-1074) x

/-- The values `rand.Float32()` returns: a `float32` in `[0, 1)`. -/
def isUnitFloat32 (u : ℚ) : Prop := roundF32 u = u ∧ 0 ≤ u ∧ u < 1

/-! ## Program state and the closures of `DrawPicture` -/

/-- The mutable state the closures share: the palette cursor `colorIndex` (it starts
at 0 and is only reduced modulo the palette length and incremented, so it is a
natural number) and the number of values already drawn from the random source. -/
structure State where
  colorIndex : Nat
  randPos : Nat
  deriving DecidableEq, Repr

/-- Closure `nextColor`:
`colorIndex = colorIndex % len(colorTriplets); val := colorTriplets[colorIndex];
colorIndex++; return val`. -/
def nextColor (st : State) : ℚ × State :=
  let colorIndex := st.colorIndex % colorTriplets.length
  let val := colorTriplets.get ⟨colorIndex, Nat.mod_lt _ (by decide)⟩
  (val, { st with colorIndex := colorIndex + 1 })

/-- Closure `randRange`:
`float64(rand.Float32()*float32(high-low) + float32(low))`, computed in `float32`;
the product and the sum are rounded separately, or once when fused. -/
def randRange (fused : Bool) (rand : Nat → ℚ) (low high : Int) (st : State) : ℚ × State :=
  let u := rand st.randPos
  let d := roundF32 ((high - low : Int) : ℚ)
  let l := roundF32 ((low : Int) : ℚ)
  (if fused then roundF32 (u * d + l) else roundF32 (roundF32 (u * d) + l),
    { st with randPos := st.randPos + 1 })

/-- Closure `nextPoint`:
`randRange(maxEdge, picWidth-2*maxEdge), randRange(maxEdge, picHeight-2*maxEdge)`,
the two calls evaluated left to right. -/
def nextPoint (fused : Bool) (rand : Nat → ℚ) (st : State) : (ℚ × ℚ) × State :=
  let x := randRange fused rand maxEdge (picWidth - 2 * maxEdge) st
  let y := randRange fused rand maxEdge (picHeight - 2 * maxEdge) x.2
  ((x.1, y.1), y.2)

/-- Function `gg.Radians` of the imported package (degrees times π/180); the angle is
kept as a rational multiple of π, so the result is `degrees / 180` in units of π, and
the rounding inside the imported function is not modelled. -/
def Radians (degrees : ℚ) : ℚ := degrees / 180

/-- First `switch` of `drawObject`, on `i % 7`.  Returns the state, the calls
issued, and whether the branch executed `return`. -/
def shapeSwitch (fused : Bool) (rand : Nat → ℚ) (i : Int) (r g b x y w h : ℚ) (st : State) :
    State × List Op × Bool :=
  let m := i.tmod 7
  if m = 0 ∨ m = 3 then
    (st, [Op.DrawRectangle x y w h], false)
  else if m = 1 ∨ m = 5 then
    let a := randRange fused rand 1 9 st
    (a.2, [Op.SetRGBA r g b (roundF64 (a.1 / 10)), Op.DrawCircle x y w], false)
  else if m = 2 ∨ m = 4 then
    let d := randRange fused rand 0 45 st
    (d.2, [Op.RotateAbout (Radians d.1) x y, Op.DrawEllipse x y w h], false)
  else if m = 6 then
    let pq := nextPoint fused rand st
    (pq.2, [Op.DrawLine x y pq.1.1 pq.1.2, Op.Stroke], true)
  else
    (st, [], false)

/-- Second `switch` of `drawObject`, on `i % 5`. -/
def paintSwitch (i : Int) : List Op :=
  let m := i.tmod 5
  if m = 0 ∨ m = 3 then [Op.Fill]
  else if m = 1 ∨ m = 2 ∨ m = 4 then [Op.Stroke]
  else []

/-- The statements of `drawObject` after `defer dc.Pop()`, up to its return. -/
def drawObjectBody (fused : Bool) (rand : Nat → ℚ) (i : Int) (st : State) : State × List Op :=
  let r := nextColor st
  let g := nextColor r.2
  let b := nextColor g.2
  let lw := randRange fused rand 2 5 b.2
  let xy := nextPoint fused rand lw.2
  let w := randRange fused rand 5 maxEdge xy.2
  let h := randRange fused rand 5 maxEdge w.2
  let sw := shapeSwitch fused rand i r.1 g.1 b.1 xy.1.1 xy.1.2 w.1 h.1 h.2
  let ops := [Op.SetRGB r.1 g.1 b.1, Op.SetLineWidth lw.1] ++ sw.2.1
  if sw.2.2 then (sw.1, ops) else (sw.1, ops ++ paintSwitch i)

/-- Closure `drawObject`: `dc.Push()`, the body, and the deferred `dc.Pop()`, which
runs when the function returns, on every path. -/
def drawObject (fused : Bool) (rand : Nat → ℚ) (i : Int) (st : State) : State × List Op :=
  let body := drawObjectBody fused rand i st
  (body.1, [Op.Push] ++ body.2 ++ [Op.Pop])

/-- The state at the start of `DrawPicture`: `colorIndex := 0`, no value drawn. -/
def initState : State := { colorIndex := 0, randPos := 0 }

/-- One iteration of `for i := 0; i < numObj; i++ { drawObject(i) }`. -/
def loopStep (fused : Bool) (rand : Nat → ℚ) (acc : State × List Op) (i : Nat) : State × List Op :=
  let o := drawObject fused rand (i : Int) acc.1
  (o.1, acc.2 ++ o.2)

/-- The first `n` iterations of the object loop, from the initial state: the state
reached and the calls issued. -/
def drawLoop (fused : Bool) (rand : Nat → ℚ) (n : Nat) : State × List Op :=
  (List.range n).foldl (loopStep fused rand) (initState, [])

/-- The caption string of the picture. -/
def caption : String := "Unknown Mir√≥ or Random Symbols?"

/-- Function `DrawPicture`: font face and caption, the object loop for
`i = 0 .. numObj-1` (no iteration when `numObj ≤ 0`), then `SavePNG`. -/
def DrawPicture (fused : Bool) (rand : Nat → ℚ) (pngPath : String) (numObj : Int) : List Op :=
  [Op.SetFontFace 16, Op.SetRGB 127 0 127,
    Op.DrawStringAnchored caption (((picWidth / 2 : Int) : Int) : ℚ)
      (((picHeight - 30 : Int) : Int) : ℚ) (1 / 2) (1 / 2)]
    ++ (drawLoop fused rand numObj.toNat).2 ++ [Op.SavePNG pngPath]

/-- The calls of a trace that follow its first shape primitive. -/
def afterShape (t : List Op) : List Op :=
  (t.dropWhile (fun o => !o.isShape)).tail

/-- Run `k` successive calls of `nextColor`: the values returned, in call order, and
the final state. -/
def nextColorCalls : Nat → State → List ℚ × State
  | 0, st => ([], st)
  | k + 1, st =>
    let v := nextColor st
    let rest := nextColorCalls k v.2
    (v.1 :: rest.1, rest.2)

/-! ## The drawing context -/

/-- The paint state of the drawing context: colour `(r, g, b, a)`, line width, the
rotations `(angle, x, y)` composed into the transform (latest first), and the size
of the font face, if one is set. -/
structure Paint where
  color : ℚ × ℚ × ℚ × ℚ
  lineWidth : ℚ
  transform : List (ℚ × ℚ × ℚ)
  fontSize : Option ℚ
  deriving DecidableEq, Repr

/-- The drawing context: current paint state, stack of saved paint states (top
first), the shape primitives of the current path, and what has been painted (the
paint state, the path or caption call, and the paint call that produced it). -/
structure Canvas where
  paint : Paint
  stack : List Paint
  path : List Op
  painted : List (Paint × List Op × Op)
  deriving DecidableEq, Repr

/-- Modelled from the spec: the drawing context is the imported `gg` package, which
is not part of the source tree.  Following section 4.4, `Push` saves the current
paint and transform state, `Pop` restores the state saved by the matching `Push`
(and fails on an empty stack), the `Set...` and `RotateAbout` calls mutate the
paint state, shape primitives extend the current path, `Fill` and `Stroke` paint
the path with the current paint state and clear it, the caption is painted at
once, and `SavePNG` leaves the context unchanged. -/
def Canvas.apply (c : Canvas) : Op → Option Canvas
  | Op.Push => some { c with stack := c.paint :: c.stack }
  | Op.Pop =>
    match c.stack with
    | [] => none
    | p :: rest => some { c with paint := p, stack := rest }
  | Op.SetFontFace size => some { c with paint := { c.paint with fontSize := some size } }
  | Op.SetRGB r g b => some { c with paint := { c.paint with color := (r, g, b, 1) } }
  | Op.SetRGBA r g b a => some { c with paint := { c.paint with color := (r, g, b, a) } }
  | Op.SetLineWidth w => some { c with paint := { c.paint with lineWidth := w } }
  | Op.RotateAbout angle x y =>
    some { c with paint := { c.paint with transform := (angle, x, y) :: c.paint.transform } }
  | Op.DrawStringAnchored s x y ax ay =>
    some { c with painted := c.painted ++ [(c.paint, [], Op.DrawStringAnchored s x y ax ay)] }
  | Op.DrawRectangle x y w h => some { c with path := c.path ++ [Op.DrawRectangle x y w h] }
  | Op.DrawCircle x y r => some { c with path := c.path ++ [Op.DrawCircle x y r] }
  | Op.DrawEllipse x y rx ry => some { c with path := c.path ++ [Op.DrawEllipse x y rx ry] }
  | Op.DrawLine x1 y1 x2 y2 => some { c with path := c.path ++ [Op.DrawLine x1 y1 x2 y2] }
  | Op.Stroke => some { c with path := [], painted := c.painted ++ [(c.paint, c.path, Op.Stroke)] }
  | Op.Fill => some { c with path := [], painted := c.painted ++ [(c.paint, c.path, Op.Fill)] }
  | Op.SavePNG _ => some c

/-- Modelled from the spec: the drawing context of the imported `gg` package, driven
by a sequence of calls in program order; `none` when a call fails. -/
def Canvas.run : Canvas → List Op → Option Canvas
  | c, [] => some c
  | c, o :: ops => (c.apply o).bind (fun c1 => Canvas.run c1 ops)


/-! ## Basic facts -/

theorem colorTriplets_length : colorTriplets.length = 63 := by decide

theorem nextColor_fst (st : State) :
    colorTriplets[st.colorIndex % 63]? = some (nextColor st).1 := by
  simp [nextColor, colorTriplets_length, List.getElem?_eq_getElem, Nat.mod_lt]

theorem nextColor_colorIndex (st : State) :
    (nextColor st).2.colorIndex = st.colorIndex % 63 + 1 := by
  simp [nextColor, colorTriplets_length]


/-! ## The palette cursor -/

theorem nextColorCalls_succ (k : Nat) (st : State) :
    nextColorCalls (k + 1) st =
      ((nextColor st).1 :: (nextColorCalls k (nextColor st).2).1,
        (nextColorCalls k (nextColor st).2).2) := rfl

/-- C1.  Starting from any cursor `c` with `0 ≤ c ≤ 63`, `k` successive calls of
`nextColor` return, for `i = 0 .. k-1`, the palette value
`colorTriplets[(c + i) mod 63]`. -/
theorem nextColorCalls_values (k : Nat) (st : State) (_hc : st.colorIndex ≤ 63) :
    (nextColorCalls k st).1.map some =
      (List.range k).map (fun i => colorTriplets[(st.colorIndex + i) % 63]?) := by
  clear _hc
  induction k generalizing st with
  | zero => simp [nextColorCalls]
  | succ k ih =>
    rw [nextColorCalls_succ, List.range_succ_eq_map]
    simp only [List.map_cons, List.map_map, Nat.add_zero]
    rw [ih, nextColor_fst, nextColor_colorIndex]
    congr 1
    apply List.map_congr_left
    intro i _
    simp only [Function.comp_apply, Nat.succ_eq_add_one]
    congr 1
    omega

theorem nextColorCalls_values_witness :
    (62 : Nat) ≤ 63 ∧
      (nextColorCalls 3 { colorIndex := 62, randPos := 0 }).1.map some =
        (List.range 3).map (fun i => colorTriplets[(62 + i) % 63]?) :=
  ⟨by decide, nextColorCalls_values 3 { colorIndex := 62, randPos := 0 } (by decide)⟩

/-- C2, refuted as stated.  From cursor 62, one call of `nextColor` leaves
`colorIndex = 63`, not `(62 + 1) mod 63 = 0`: the cursor is reduced modulo 63 at the
start of a call, not after the increment. -/
theorem nextColor_cursor_not_wrapped :
    (62 : Nat) < 63 ∧
      (nextColorCalls 1 { colorIndex := 62, randPos := 0 }).2.colorIndex = 63 ∧
      (nextColorCalls 1 { colorIndex := 62, randPos := 0 }).2.colorIndex ≠ (62 + 1) % 63 := by
  simp [nextColorCalls, nextColor, colorTriplets]

/-- C2, amended.  Starting from any cursor `c` with `0 ≤ c ≤ 63`, after `k` calls of
`nextColor` the cursor lies in `0 .. 63` and is congruent to `c + k` modulo 63; for
`k ≥ 1` it equals `((c + k - 1) mod 63) + 1`: each call first reduces the cursor
modulo the palette length, then advances it by one. -/
theorem nextColorCalls_cursor (k : Nat) (st : State) (hc : st.colorIndex ≤ 63) :
    (nextColorCalls k st).2.colorIndex ≤ 63 ∧
      (nextColorCalls k st).2.colorIndex % 63 = (st.colorIndex + k) % 63 ∧
      (0 < k → (nextColorCalls k st).2.colorIndex = (st.colorIndex + k - 1) % 63 + 1) := by
  induction k generalizing st with
  | zero => simp [nextColorCalls, hc]
  | succ k ih =>
    rw [nextColorCalls_succ]
    have h1 : (nextColor st).2.colorIndex ≤ 63 := by
      rw [nextColor_colorIndex]; omega
    obtain ⟨a, b, c⟩ := ih (nextColor st).2 h1
    rw [nextColor_colorIndex] at b c
    refine ⟨a, by simp only; omega, fun _ => ?_⟩
    simp only
    rcases Nat.eq_zero_or_pos k with hk | hk
    · subst hk
      simp [nextColorCalls, nextColor_colorIndex]
    · rw [c hk]; omega

theorem nextColorCalls_cursor_witness :
    (62 : Nat) ≤ 63 ∧
      (nextColorCalls 1 { colorIndex := 62, randPos := 0 }).2.colorIndex ≤ 63 ∧
      (nextColorCalls 1 { colorIndex := 62, randPos := 0 }).2.colorIndex % 63 = (62 + 1) % 63 ∧
      (0 < 1 → (nextColorCalls 1 { colorIndex := 62, randPos := 0 }).2.colorIndex
        = (62 + 1 - 1) % 63 + 1) :=
  ⟨by decide, nextColorCalls_cursor 1 { colorIndex := 62, randPos := 0 } (by decide)⟩


/-! ## Shape kind and paint mode of `drawObject` -/

theorem tmod_seven_cases (i : Int) (hi : 0 ≤ i) :
    i.tmod 7 = i % 7 ∧
      (i % 7 = 0 ∨ i % 7 = 1 ∨ i % 7 = 2 ∨ i % 7 = 3 ∨ i % 7 = 4 ∨ i % 7 = 5 ∨ i % 7 = 6) :=
  ⟨Int.tmod_eq_emod hi (by decide), by omega⟩

theorem tmod_five_cases (i : Int) (hi : 0 ≤ i) :
    i.tmod 5 = i % 5 ∧ (i % 5 = 0 ∨ i % 5 = 1 ∨ i % 5 = 2 ∨ i % 5 = 3 ∨ i % 5 = 4) :=
  ⟨Int.tmod_eq_emod hi (by decide), by omega⟩

/-- C3.  For every index `i ≥ 0`, every state (palette cursor, draws taken) and every
random stream, the calls of `drawObject(i)` contain exactly one shape primitive, of
the kind fixed by `i mod 7`: rectangle for 0 and 3, circle for 1 and 5, ellipse for 2
and 4, line for 6.  (The default branch issues no primitive, so it is not taken.) -/
theorem drawObject_shape_kind (fused : Bool) (rand : Nat → ℚ) (i : Int) (st : State) (hi : 0 ≤ i) :
    ((drawObject fused rand i st).2.filter Op.isShape).length = 1 ∧
      (i % 7 = 0 ∨ i % 7 = 3 → (drawObject fused rand i st).2.filterMap Op.kind = [Kind.rectangle]) ∧
      (i % 7 = 1 ∨ i % 7 = 5 → (drawObject fused rand i st).2.filterMap Op.kind = [Kind.circle]) ∧
      (i % 7 = 2 ∨ i % 7 = 4 → (drawObject fused rand i st).2.filterMap Op.kind = [Kind.ellipse]) ∧
      (i % 7 = 6 → (drawObject fused rand i st).2.filterMap Op.kind = [Kind.line]) := by
  obtain ⟨h7, c7⟩ := tmod_seven_cases i hi
  obtain ⟨h5, c5⟩ := tmod_five_cases i hi
  rcases c7 with h | h | h | h | h | h | h <;>
    rcases c5 with k | k | k | k | k <;>
      simp [drawObject, drawObjectBody, shapeSwitch, paintSwitch, h7, h5, h, k,
        Op.isShape, Op.kind]

theorem drawObject_shape_kind_witness :
    (0 : Int) ≤ 12 ∧
      ((drawObject false (fun _ => 1 / 2) 12 initState).2.filter Op.isShape).length = 1 ∧
      ((12 : Int) % 7 = 0 ∨ (12 : Int) % 7 = 3 →
        (drawObject false (fun _ => 1 / 2) 12 initState).2.filterMap Op.kind = [Kind.rectangle]) ∧
      ((12 : Int) % 7 = 1 ∨ (12 : Int) % 7 = 5 →
        (drawObject false (fun _ => 1 / 2) 12 initState).2.filterMap Op.kind = [Kind.circle]) ∧
      ((12 : Int) % 7 = 2 ∨ (12 : Int) % 7 = 4 →
        (drawObject false (fun _ => 1 / 2) 12 initState).2.filterMap Op.kind = [Kind.ellipse]) ∧
      ((12 : Int) % 7 = 6 →
        (drawObject false (fun _ => 1 / 2) 12 initState).2.filterMap Op.kind = [Kind.line]) :=
  ⟨by decide, drawObject_shape_kind false (fun _ => 1 / 2) 12 initState (by decide)⟩


/-- C4.  For every index `i ≥ 0` with `i mod 7 ≠ 6` (rectangle, circle, ellipse) and
every state and random stream, `drawObject(i)` issues exactly one paint operation,
right after the shape primitive and before the closing `Pop`, fixed by `i mod 5`:
`Fill` for 0 and 3, `Stroke` for 1, 2 and 4. -/
theorem drawObject_paint_mode (fused : Bool) (rand : Nat → ℚ) (i : Int) (st : State) (hi : 0 ≤ i)
    (hline : i % 7 ≠ 6) :
    (i % 5 = 0 ∨ i % 5 = 3 →
        (drawObject fused rand i st).2.filter Op.isPaint = [Op.Fill] ∧
        afterShape (drawObject fused rand i st).2 = [Op.Fill, Op.Pop]) ∧
      (i % 5 = 1 ∨ i % 5 = 2 ∨ i % 5 = 4 →
        (drawObject fused rand i st).2.filter Op.isPaint = [Op.Stroke] ∧
        afterShape (drawObject fused rand i st).2 = [Op.Stroke, Op.Pop]) := by
  obtain ⟨h7, c7⟩ := tmod_seven_cases i hi
  obtain ⟨h5, c5⟩ := tmod_five_cases i hi
  rcases c7 with h | h | h | h | h | h | h <;>
    rcases c5 with k | k | k | k | k <;>
      first
      | exact absurd h hline
      | simp [drawObject, drawObjectBody, shapeSwitch, paintSwitch, h7, h5, h, k,
          Op.isShape, Op.kind, Op.isPaint, afterShape, List.dropWhile]

theorem drawObject_paint_mode_witness :
    (0 : Int) ≤ 3 ∧ (3 : Int) % 7 ≠ 6 ∧
      (((3 : Int) % 5 = 0 ∨ (3 : Int) % 5 = 3 →
        (drawObject false (fun _ => 1 / 2) 3 initState).2.filter Op.isPaint = [Op.Fill] ∧
        afterShape (drawObject false (fun _ => 1 / 2) 3 initState).2 = [Op.Fill, Op.Pop]) ∧
      ((3 : Int) % 5 = 1 ∨ (3 : Int) % 5 = 2 ∨ (3 : Int) % 5 = 4 →
        (drawObject false (fun _ => 1 / 2) 3 initState).2.filter Op.isPaint = [Op.Stroke] ∧
        afterShape (drawObject false (fun _ => 1 / 2) 3 initState).2 = [Op.Stroke, Op.Pop])) :=
  ⟨by decide, by decide,
    drawObject_paint_mode false (fun _ => 1 / 2) 3 initState (by decide) (by decide)⟩

/-- C5.  For every index `i ≥ 0` with `i mod 7 = 6`, whatever `i mod 5` is,
`drawObject(i)` draws a line as its only shape primitive and issues `Stroke` exactly
once, right after the line and before the closing `Pop`; it never issues `Fill`. -/
theorem drawObject_line_stroked (fused : Bool) (rand : Nat → ℚ) (i : Int) (st : State) (hi : 0 ≤ i)
    (hline : i % 7 = 6) :
    (drawObject fused rand i st).2.filterMap Op.kind = [Kind.line] ∧
      (drawObject fused rand i st).2.filter Op.isPaint = [Op.Stroke] ∧
      afterShape (drawObject fused rand i st).2 = [Op.Stroke, Op.Pop] ∧
      Op.Fill ∉ (drawObject fused rand i st).2 := by
  obtain ⟨h7, -⟩ := tmod_seven_cases i hi
  simp [drawObject, drawObjectBody, shapeSwitch, h7, hline,
    Op.isShape, Op.kind, Op.isPaint, afterShape, List.dropWhile]

theorem drawObject_line_stroked_witness :
    ((0 : Int) ≤ 13 ∧ (13 : Int) % 7 = 6 ∧ (13 : Int) % 5 = 3 ∧
      (drawObject false (fun _ => 1 / 2) 13 initState).2.filterMap Op.kind = [Kind.line] ∧
      (drawObject false (fun _ => 1 / 2) 13 initState).2.filter Op.isPaint = [Op.Stroke] ∧
      afterShape (drawObject false (fun _ => 1 / 2) 13 initState).2 = [Op.Stroke, Op.Pop] ∧
      Op.Fill ∉ (drawObject false (fun _ => 1 / 2) 13 initState).2) ∧
    ((0 : Int) ≤ 20 ∧ (20 : Int) % 7 = 6 ∧ (20 : Int) % 5 = 0 ∧
      (drawObject false (fun _ => 1 / 2) 20 initState).2.filterMap Op.kind = [Kind.line] ∧
      (drawObject false (fun _ => 1 / 2) 20 initState).2.filter Op.isPaint = [Op.Stroke] ∧
      afterShape (drawObject false (fun _ => 1 / 2) 20 initState).2 = [Op.Stroke, Op.Pop] ∧
      Op.Fill ∉ (drawObject false (fun _ => 1 / 2) 20 initState).2) :=
  ⟨⟨by decide, by decide, by decide,
      drawObject_line_stroked false (fun _ => 1 / 2) 13 initState (by decide) (by decide)⟩,
    ⟨by decide, by decide, by decide,
      drawObject_line_stroked false (fun _ => 1 / 2) 20 initState (by decide) (by decide)⟩⟩


/-! ## Rounding to nearest: bounds -/

theorem roundHalfEven_le (q : ℚ) (B : Int) (h : q ≤ B) : roundHalfEven q ≤ B := by
  have hf := Int.floor_le q
  have hfB : ⌊q⌋ ≤ B := by exact_mod_cast hf.trans h
  have hstep : 0 < q - ⌊q⌋ → ⌊q⌋ + 1 ≤ B := by
    intro hpos
    have : ((⌊q⌋ : Int) : ℚ) < (B : ℚ) := by linarith
    have : ⌊q⌋ < B := by exact_mod_cast this
    omega
  unfold roundHalfEven
  simp only
  split_ifs with h1 h2 h3
  · exact hfB
  · exact hstep (by linarith)
  · exact hfB
  · exact hstep (by linarith)

theorem le_roundHalfEven (q : ℚ) (A : Int) (h : (A : ℚ) ≤ q) : A ≤ roundHalfEven q := by
  have hA : A ≤ ⌊q⌋ := Int.le_floor.mpr h
  unfold roundHalfEven
  simp only
  split_ifs <;> omega

theorem roundHalfEven_le_pred (q : ℚ) (B : Int) (h : q < (B : ℚ) - 1 / 2) :
    roundHalfEven q ≤ B - 1 := by
  have hf := Int.floor_le q
  have hfB : ⌊q⌋ ≤ B - 1 := by
    have : ((⌊q⌋ : Int) : ℚ) < (B : ℚ) := by linarith
    have : ⌊q⌋ < B := by exact_mod_cast this
    omega
  have hstep : 1 / 2 ≤ q - ⌊q⌋ → ⌊q⌋ + 1 ≤ B - 1 := by
    intro hpos
    have : ((⌊q⌋ : Int) : ℚ) + 1 < (B : ℚ) := by linarith
    have : ⌊q⌋ + 1 < B := by exact_mod_cast this
    omega
  unfold roundHalfEven
  simp only
  split_ifs with h1 h2 h3
  · exact hfB
  · exact hstep (by linarith)
  · exact hfB
  · exact hstep (by linarith)

theorem roundHalfEven_intCast (k : Int) : roundHalfEven (k : ℚ) = k := by
  simp [roundHalfEven]


theorem two_zpow_pos (e : Int) : (0 : ℚ) < 2 ^ e := zpow_pos (by norm_num) e

theorem ulpExp_mono (p : Nat) (emin : Int) {x y : ℚ} (hx : 0 < x) (hxy : x ≤ y) :
    ulpExp p emin x ≤ ulpExp p emin y := by
  unfold ulpExp
  have hy : 0 < y := lt_of_lt_of_le hx hxy
  rw [abs_of_pos hx, abs_of_pos hy]
  exact max_le_max (sub_le_sub_right (Int.log_mono_right hx hxy) _) le_rfl

theorem emin_le_ulpExp (p : Nat) (emin : Int) (x : ℚ) : emin ≤ ulpExp p emin x :=
  le_max_right _ _

theorem roundFloat_zero (p : Nat) (emin : Int) : roundFloat p emin 0 = 0 := by
  simp [roundFloat, roundHalfEven]

theorem roundFloat_nonneg (p : Nat) (emin : Int) {x : ℚ} (hx : 0 ≤ x) :
    0 ≤ roundFloat p emin x := by
  unfold roundFloat
  have h2 := two_zpow_pos (ulpExp p emin x)
  have hq : ((0 : Int) : ℚ) ≤ x / 2 ^ ulpExp p emin x := by
    simpa using div_nonneg hx h2.le
  have := le_roundHalfEven _ 0 hq
  have hc : (0 : ℚ) ≤ (roundHalfEven (x / 2 ^ ulpExp p emin x) : ℚ) := by exact_mod_cast this
  exact mul_nonneg hc h2.le

/-- A multiple of a coarser unit is a multiple of a finer unit. -/
theorem mul_zpow_refine (m : Int) {e c : Int} (h : e ≤ c) :
    ∃ k : Int, (m : ℚ) * 2 ^ c = (k : ℚ) * 2 ^ e := by
  obtain ⟨j, hj⟩ := Int.le.dest h
  refine ⟨m * 2 ^ j, ?_⟩
  rw [← hj, zpow_add₀ (by norm_num : (2 : ℚ) ≠ 0), zpow_natCast]
  push_cast
  ring

/-- Rounding does not cross a value on the grid of `x` that lies above `x`. -/
theorem roundFloat_le_of_grid (p : Nat) (emin : Int) {x : ℚ} (k : Int)
    (h : x ≤ (k : ℚ) * 2 ^ ulpExp p emin x) :
    roundFloat p emin x ≤ (k : ℚ) * 2 ^ ulpExp p emin x := by
  unfold roundFloat
  have h2 := two_zpow_pos (ulpExp p emin x)
  have hq : x / 2 ^ ulpExp p emin x ≤ (k : ℚ) := by
    rw [div_le_iff₀ h2]; exact h
  have := roundHalfEven_le _ k hq
  have hc : (roundHalfEven (x / 2 ^ ulpExp p emin x) : ℚ) ≤ (k : ℚ) := by exact_mod_cast this
  exact mul_le_mul_of_nonneg_right hc h2.le

theorem le_roundFloat_of_grid (p : Nat) (emin : Int) {x : ℚ} (k : Int)
    (h : (k : ℚ) * 2 ^ ulpExp p emin x ≤ x) :
    (k : ℚ) * 2 ^ ulpExp p emin x ≤ roundFloat p emin x := by
  unfold roundFloat
  have h2 := two_zpow_pos (ulpExp p emin x)
  have hq : (k : ℚ) ≤ x / 2 ^ ulpExp p emin x := by
    rw [le_div_iff₀ h2]; exact h
  have := le_roundHalfEven _ k hq
  have hc : (k : ℚ) ≤ (roundHalfEven (x / 2 ^ ulpExp p emin x) : ℚ) := by exact_mod_cast this
  exact mul_le_mul_of_nonneg_right hc h2.le

/-- Upper bound: rounding `x ≥ 0` does not exceed a value `b ≥ x` that is a multiple of its
own unit in the last place. -/
theorem roundFloat_le (p : Nat) (emin : Int) {x b : ℚ} (m : Int) (hx : 0 ≤ x) (hxb : x ≤ b)
    (hb : b = (m : ℚ) * 2 ^ ulpExp p emin b) : roundFloat p emin x ≤ b := by
  rcases hx.eq_or_lt with h0 | hpos
  · rw [← h0, roundFloat_zero]; exact hx.trans hxb
  · obtain ⟨k, hk⟩ := mul_zpow_refine m (ulpExp_mono p emin hpos hxb)
    rw [← hb] at hk
    have := roundFloat_le_of_grid p emin k (hk ▸ hxb)
    rwa [← hk] at this


theorem log_two_abs_of_bounds {x : ℚ} {L : Int} (h1 : (2 : ℚ) ^ L ≤ x)
    (h2 : x < (2 : ℚ) ^ (L + 1)) : Int.log 2 |x| = L := by
  have hx : 0 < x := lt_of_lt_of_le (two_zpow_pos L) h1
  rw [abs_of_pos hx]
  have ha : L ≤ Int.log 2 x :=
    (Int.zpow_le_iff_le_log (by norm_num : 1 < 2) hx).mp (by simpa using h1)
  have hb : Int.log 2 x < L + 1 :=
    (Int.lt_zpow_iff_log_lt (by norm_num : 1 < 2) hx).mp (by simpa using h2)
  omega

/-- The unit in the last place of a value in the binade `[2^(p-1+e), 2^(p+e))`. -/
theorem ulpExp_of_bounds (p : Nat) (emin : Int) {x : ℚ} {e : Int} (he : emin ≤ e)
    (h1 : (2 : ℚ) ^ ((p : Int) - 1 + e) ≤ x) (h2 : x < (2 : ℚ) ^ ((p : Int) + e)) :
    ulpExp p emin x = e := by
  have h2' : x < (2 : ℚ) ^ ((p : Int) - 1 + e + 1) := by
    have : (p : Int) - 1 + e + 1 = (p : Int) + e := by ring
    rw [this]; exact h2
  unfold ulpExp
  rw [log_two_abs_of_bounds h1 h2']
  have : (p : Int) - 1 + e - ((p : Int) - 1) = e := by ring
  rw [this]
  exact max_eq_left he

/-- A value `m * 2^e` with `2^(p-1) ≤ m < 2^p` has unit in the last place `2^e`. -/
theorem ulpExp_of_significand (p : Nat) (emin : Int) {x : ℚ} {e : Int} (he : emin ≤ e)
    (hp : 1 ≤ p) (lo hi : ℚ) (hlo : (2 : ℚ) ^ (p - 1) ≤ lo) (hhi : hi ≤ (2 : ℚ) ^ p)
    (h1 : lo * 2 ^ e ≤ x) (h2 : x < hi * 2 ^ e) : ulpExp p emin x = e := by
  have h2e := two_zpow_pos e
  apply ulpExp_of_bounds p emin he
  · have : (2 : ℚ) ^ ((p : Int) - 1 + e) = (2 : ℚ) ^ (p - 1) * 2 ^ e := by
      rw [zpow_add₀ (by norm_num : (2 : ℚ) ≠ 0)]
      congr 1
      have : ((p : Int) - 1) = ((p - 1 : Nat) : Int) := by omega
      rw [this, zpow_natCast]
    rw [this]
    exact le_trans (mul_le_mul_of_nonneg_right hlo h2e.le) h1
  · have : (2 : ℚ) ^ ((p : Int) + e) = (2 : ℚ) ^ p * 2 ^ e := by
      rw [zpow_add₀ (by norm_num : (2 : ℚ) ≠ 0), zpow_natCast]
    rw [this]
    exact lt_of_lt_of_le h2 (mul_le_mul_of_nonneg_right hhi h2e.le)

/-- A representable value `m * 2^c` (`|m| < 2^p`, `emin ≤ c`) is a multiple of its own
unit in the last place. -/
theorem grid_of_rep (p : Nat) (emin : Int) (m c : Int) (hm : |(m : ℚ)| < 2 ^ p)
    (hc : emin ≤ c) :
    ∃ k : Int, (m : ℚ) * 2 ^ c = (k : ℚ) * 2 ^ ulpExp p emin ((m : ℚ) * 2 ^ c) := by
  have h2c := two_zpow_pos c
  rcases eq_or_ne m 0 with h0 | h0
  · exact ⟨0, by simp [h0]⟩
  · apply mul_zpow_refine
    unfold ulpExp
    have hm0 : (0 : ℚ) < |(m : ℚ)| := abs_pos.mpr (by exact_mod_cast h0)
    have habs : |(m : ℚ) * 2 ^ c| = |(m : ℚ)| * 2 ^ c := by
      rw [abs_mul, abs_of_pos h2c]
    have hpos : (0 : ℚ) < |(m : ℚ) * 2 ^ c| := by rw [habs]; exact mul_pos hm0 h2c
    have hlt : |(m : ℚ) * 2 ^ c| < ((2 : Nat) : ℚ) ^ ((p : Int) + c) := by
      rw [habs, zpow_add₀ (by norm_num), zpow_natCast]
      push_cast
      exact mul_lt_mul_of_pos_right hm h2c
    have := (Int.lt_zpow_iff_log_lt (by norm_num : 1 < 2) hpos).mp hlt
    exact max_le (by omega) hc

/-- Representable values are fixed by rounding. -/
theorem roundFloat_of_grid (p : Nat) (emin : Int) {x : ℚ} (k : Int)
    (h : x = (k : ℚ) * 2 ^ ulpExp p emin x) : roundFloat p emin x = x := by
  have h2 := two_zpow_pos (ulpExp p emin x)
  have hq : x / 2 ^ ulpExp p emin x = (k : ℚ) := by
    rw [div_eq_iff h2.ne']; exact h
  unfold roundFloat
  rw [hq, roundHalfEven_intCast]
  exact h.symm

theorem roundFloat_of_rep (p : Nat) (emin : Int) (m c : Int) (hm : |(m : ℚ)| < 2 ^ p)
    (hc : emin ≤ c) : roundFloat p emin ((m : ℚ) * 2 ^ c) = (m : ℚ) * 2 ^ c := by
  obtain ⟨k, hk⟩ := grid_of_rep p emin m c hm hc
  exact roundFloat_of_grid p emin k hk


theorem two_pow_cast (n : Nat) : (((2 : Int) ^ n : Int) : ℚ) = (2 : ℚ) ^ n := by
  push_cast; rfl

/-- Lower bound: rounding `x` does not fall below a value `0 ≤ a ≤ x` that is a multiple of
its own unit in the last place. -/
theorem le_roundFloat (p : Nat) (emin : Int) {a x : ℚ} (m : Int) (hp : 1 ≤ p) (ha : 0 ≤ a)
    (hax : a ≤ x) (hgrid : a = (m : ℚ) * 2 ^ ulpExp p emin a) : a ≤ roundFloat p emin x := by
  rcases ha.eq_or_lt with h0 | hpos
  · rw [← h0]; exact roundFloat_nonneg p emin (ha.trans hax)
  · have hx : 0 < x := lt_of_lt_of_le hpos hax
    rcases (ulpExp_mono p emin hpos hax).eq_or_lt with heq | hlt
    · have h1 : (m : ℚ) * 2 ^ ulpExp p emin x ≤ x := by rw [← heq, ← hgrid]; exact hax
      have := le_roundFloat_of_grid p emin m h1
      rwa [← heq, ← hgrid] at this
    · have hlog : Int.log 2 a + 1 ≤ Int.log 2 x ∧
          ulpExp p emin x = Int.log 2 x - ((p : Int) - 1) := by
        unfold ulpExp at hlt ⊢
        rw [abs_of_pos hpos, abs_of_pos hx] at hlt
        rw [abs_of_pos hx]
        constructor
        · rcases le_or_lt (Int.log 2 x) (Int.log 2 a) with hc | hc
          · exact absurd hlt (not_lt.mpr (max_le_max (by omega) le_rfl))
          · omega
        · apply max_eq_left
          rcases le_or_lt emin (Int.log 2 x - ((p : Int) - 1)) with hc | hc
          · exact hc
          · rw [max_eq_right hc.le] at hlt
            exact absurd hlt (not_lt.mpr (le_max_right _ _))
      obtain ⟨hL, he⟩ := hlog
      have hpow : (((2 : Int) ^ (p - 1) : Int) : ℚ) * 2 ^ ulpExp p emin x
          = (2 : ℚ) ^ Int.log 2 x := by
        rw [two_pow_cast, he, ← zpow_natCast, ← zpow_add₀ (by norm_num : (2 : ℚ) ≠ 0)]
        congr 1
        omega
      have hle : (2 : ℚ) ^ Int.log 2 x ≤ x := by
        simpa using Int.zpow_log_le_self (by norm_num : 1 < 2) hx
      have h1 := le_roundFloat_of_grid p emin ((2 : Int) ^ (p - 1)) (by rw [hpow]; exact hle)
      rw [hpow] at h1
      have hlt2 : a < (2 : ℚ) ^ (Int.log 2 a + 1) := by
        simpa using Int.lt_zpow_succ_log_self (by norm_num : 1 < 2) a
      have hmono : (2 : ℚ) ^ (Int.log 2 a + 1) ≤ (2 : ℚ) ^ Int.log 2 x :=
        zpow_le_zpow_right₀ (by norm_num) hL
      linarith

/-- Rounding below a midpoint: if `0 ≤ x` lies below the midpoint of the adjacent values
`(m - 1) * 2^e` and `m * 2^e`, with `2^(p-1) < m ≤ 2^p`, then `x` rounds to at most
`(m - 1) * 2^e`. -/
theorem roundFloat_le_pred (p : Nat) (emin : Int) {x : ℚ} (m e : Int) (hp : 1 ≤ p)
    (he : emin ≤ e) (hm1 : (2 : Int) ^ (p - 1) < m) (hm2 : m ≤ (2 : Int) ^ p) (hx0 : 0 ≤ x)
    (hx : x < ((m : ℚ) - 1 / 2) * 2 ^ e) : roundFloat p emin x ≤ ((m : ℚ) - 1) * 2 ^ e := by
  have h2e := two_zpow_pos e
  have hlo : (2 : ℚ) ^ (p - 1) ≤ (m : ℚ) - 1 := by
    have : (2 : Int) ^ (p - 1) ≤ m - 1 := by omega
    have := (Int.cast_le (R := ℚ)).mpr this
    rw [two_pow_cast] at this
    push_cast at this
    exact this
  have hhi : (m : ℚ) ≤ (2 : ℚ) ^ p := by
    have := (Int.cast_le (R := ℚ)).mpr hm2
    rwa [two_pow_cast] at this
  by_cases hcase : x ≤ ((m : ℚ) - 1) * 2 ^ e
  · have hu : ulpExp p emin (((m : ℚ) - 1) * 2 ^ e) = e :=
      ulpExp_of_significand p emin he hp ((m : ℚ) - 1) (m : ℚ) hlo hhi le_rfl
        (mul_lt_mul_of_pos_right (by linarith) h2e)
    apply roundFloat_le p emin (m - 1) hx0 hcase
    rw [hu]; push_cast; ring
  · push_neg at hcase
    have hu : ulpExp p emin x = e :=
      ulpExp_of_significand p emin he hp ((m : ℚ) - 1) (m : ℚ) hlo hhi hcase.le
        (lt_trans hx (mul_lt_mul_of_pos_right (by linarith) h2e))
    unfold roundFloat
    rw [hu]
    have hq : x / 2 ^ e < (m : ℚ) - 1 / 2 := by rw [div_lt_iff₀ h2e]; exact hx
    have := roundHalfEven_le_pred _ m hq
    have hc : (roundHalfEven (x / 2 ^ e) : ℚ) ≤ (m : ℚ) - 1 := by exact_mod_cast this
    exact mul_le_mul_of_nonneg_right hc h2e.le

/-! ## Geometry -/

theorem roundF32_of_rep (m c : Int) (hm : |(m : ℚ)| < 2 ^ 24) (hc : -149 ≤ c) :
    roundF32 ((m : ℚ) * 2 ^ c) = (m : ℚ) * 2 ^ c :=
  roundFloat_of_rep 24 (-149) m c hm hc

/-- A `float32` below 1 is at most `1 - 2^(-24)`. -/
theorem unitFloat32_le {u : ℚ} (hu : isUnitFloat32 u) : u ≤ 1 - 1 / 2 ^ 24 := by
  obtain ⟨hf, -, h1⟩ := hu
  by_contra hcon
  push_neg at hcon
  have hulp : ulpExp 24 (-149) u = -24 :=
    ulpExp_of_significand 24 (-149) (by norm_num) (by norm_num) (2 ^ 24 - 1) (2 ^ 24)
      (by norm_num) (by norm_num) (by norm_num at hcon ⊢; linarith)
      (by norm_num at h1 ⊢; linarith)
  unfold roundF32 roundFloat at hf
  rw [hulp] at hf
  have hk1 : ((2 ^ 24 - 1 : Int) : ℚ) < (roundHalfEven (u / 2 ^ (-24 : Int)) : ℚ) := by
    rw [← hf] at hcon
    norm_num at hcon ⊢
    linarith
  have hk2 : (roundHalfEven (u / 2 ^ (-24 : Int)) : ℚ) < ((2 ^ 24 : Int) : ℚ) := by
    rw [← hf] at h1
    norm_num at h1 ⊢
    linarith
  have i1 : (2 ^ 24 - 1 : Int) < roundHalfEven (u / 2 ^ (-24 : Int)) := by exact_mod_cast hk1
  have i2 : roundHalfEven (u / 2 ^ (-24 : Int)) < (2 ^ 24 : Int) := by exact_mod_cast hk2
  omega

/-- The multiply-add of `randRange` in `float32`: for `0 ≤ u ≤ 1 - 2^(-24)`, a width
`d = md * 2^e` with `2^23 < md`, and a lower end `l = ml * 2^e` with `md + ml ≤ 2^24`
(the upper end `l + d` being `(md + ml) * 2^e`), the result lies in
`[l, l + d - 2^e]`, whether the product and sum are rounded separately or fused. -/
theorem mulAdd_bounds (fused : Bool) (u : ℚ) (md ml e : Int) (hu0 : 0 ≤ u)
    (hu1 : u ≤ 1 - 1 / 2 ^ 24) (he : -149 ≤ e) (hmd : 2 ^ 23 < md) (hml : 0 ≤ ml)
    (hsum : md + ml ≤ 2 ^ 24) :
    (ml : ℚ) * 2 ^ e ≤
        (if fused then roundF32 (u * ((md : ℚ) * 2 ^ e) + (ml : ℚ) * 2 ^ e)
          else roundF32 (roundF32 (u * ((md : ℚ) * 2 ^ e)) + (ml : ℚ) * 2 ^ e)) ∧
      (if fused then roundF32 (u * ((md : ℚ) * 2 ^ e) + (ml : ℚ) * 2 ^ e)
          else roundF32 (roundF32 (u * ((md : ℚ) * 2 ^ e)) + (ml : ℚ) * 2 ^ e)) ≤
        ((md : ℚ) + (ml : ℚ) - 1) * 2 ^ e := by
  have h2e := two_zpow_pos e
  have hmdq : (2 : ℚ) ^ 23 < (md : ℚ) := by exact_mod_cast hmd
  have hmlq : (0 : ℚ) ≤ (ml : ℚ) := by exact_mod_cast hml
  have hsumq : (md : ℚ) + (ml : ℚ) ≤ 2 ^ 24 := by exact_mod_cast hsum
  have hmd0 : (0 : ℚ) < (md : ℚ) := lt_trans (by norm_num) hmdq
  have hl0 : (0 : ℚ) ≤ (ml : ℚ) * 2 ^ e := mul_nonneg hmlq h2e.le
  have hprod0 : 0 ≤ u * ((md : ℚ) * 2 ^ e) := mul_nonneg hu0 (mul_nonneg hmd0.le h2e.le)
  have hum : u * (md : ℚ) < (md : ℚ) - 1 / 2 := by
    have h1 : u * (md : ℚ) ≤ (1 - 1 / 2 ^ 24) * (md : ℚ) :=
      mul_le_mul_of_nonneg_right hu1 hmd0.le
    have h2 : (1 - 1 / 2 ^ 24) * (md : ℚ) < (md : ℚ) - 1 / 2 := by
      norm_num at hmdq ⊢
      linarith
    exact lt_of_le_of_lt h1 h2
  have hprod : u * ((md : ℚ) * 2 ^ e) < ((md : ℚ) - 1 / 2) * 2 ^ e := by
    rw [← mul_assoc]
    exact mul_lt_mul_of_pos_right hum h2e
  have hmlabs : |(ml : ℚ)| < 2 ^ 24 := by
    rw [abs_of_nonneg hmlq]
    linarith
  obtain ⟨kl, hkl⟩ := grid_of_rep 24 (-149) ml e hmlabs he
  cases fused
  · simp only [Bool.false_eq_true, if_false]
    have hP1 : roundF32 (u * ((md : ℚ) * 2 ^ e)) ≤ ((md : ℚ) - 1) * 2 ^ e :=
      roundFloat_le_pred 24 (-149) md e (by norm_num) he (by norm_num; omega)
        (by norm_num; omega) hprod0 hprod
    have hP0 : 0 ≤ roundF32 (u * ((md : ℚ) * 2 ^ e)) := roundFloat_nonneg 24 (-149) hprod0
    have hub : roundF32 (u * ((md : ℚ) * 2 ^ e)) + (ml : ℚ) * 2 ^ e
        ≤ ((md + ml - 1 : Int) : ℚ) * 2 ^ e := by
      push_cast
      linarith
    have hsabs : |((md + ml - 1 : Int) : ℚ)| < 2 ^ 24 := by
      push_cast
      rw [abs_of_nonneg (by linarith)]
      linarith
    obtain ⟨kb, hkb⟩ := grid_of_rep 24 (-149) (md + ml - 1) e hsabs he
    constructor
    · exact le_roundFloat 24 (-149) kl (by norm_num) hl0 (by linarith) hkl
    · have := roundFloat_le 24 (-149) kb (by linarith) hub hkb
      have e1 : ((md + ml - 1 : Int) : ℚ) = (md : ℚ) + (ml : ℚ) - 1 := by push_cast; ring
      rw [e1] at this
      exact this
  · simp only [if_true]
    constructor
    · exact le_roundFloat 24 (-149) kl (by norm_num) hl0 (by linarith) hkl
    · have hlt : u * ((md : ℚ) * 2 ^ e) + (ml : ℚ) * 2 ^ e
          < (((md + ml : Int) : ℚ) - 1 / 2) * 2 ^ e := by
        push_cast
        linarith
      have := roundFloat_le_pred 24 (-149) (md + ml) e (by norm_num) he (by norm_num; omega)
        (by norm_num; omega) (by linarith) hlt
      have e1 : ((md + ml : Int) : ℚ) = (md : ℚ) + (ml : ℚ) := by push_cast; ring
      rw [e1] at this
      exact this

/-- Bounds of `randRange(low, high)` in `float32`, for a draw in `[0, 1)`: when
`low = ml * 2^e > 0` and `high - low = md * 2^e` with `2^23 < md` and `md + ml ≤ 2^24`, the
result lies in `[low, high - 2^e]`, in particular below `high`. -/
theorem randRange_bounds (fused : Bool) (rand : Nat → ℚ) (low high : Int) (st : State)
    (md ml e : Int) (he : -149 ≤ e) (hmd : 2 ^ 23 < md) (hml : 0 < ml)
    (hsum : md + ml ≤ 2 ^ 24) (hd : ((high - low : Int) : ℚ) = (md : ℚ) * 2 ^ e)
    (hl : ((low : Int) : ℚ) = (ml : ℚ) * 2 ^ e) (hu : isUnitFloat32 (rand st.randPos)) :
    (low : ℚ) ≤ (randRange fused rand low high st).1 ∧
      (randRange fused rand low high st).1 < (high : ℚ) := by
  have h2e := two_zpow_pos e
  have hmdq : (md : ℚ) < 2 ^ 24 := by
    have : md < 2 ^ 24 := by omega
    exact_mod_cast this
  have hmlq : (ml : ℚ) < 2 ^ 24 := by
    have : ml < 2 ^ 24 := by omega
    exact_mod_cast this
  have hmd0 : (0 : ℚ) ≤ (md : ℚ) := by
    have : 0 ≤ md := by omega
    exact_mod_cast this
  have hml0 : (0 : ℚ) ≤ (ml : ℚ) := by exact_mod_cast hml.le
  have hrd : roundF32 ((high - low : Int) : ℚ) = (md : ℚ) * 2 ^ e := by
    rw [hd]
    exact roundF32_of_rep md e (by rw [abs_of_nonneg hmd0]; exact hmdq) he
  have hrl : roundF32 ((low : Int) : ℚ) = (ml : ℚ) * 2 ^ e := by
    rw [hl]
    exact roundF32_of_rep ml e (by rw [abs_of_nonneg hml0]; exact hmlq) he
  have hb := mulAdd_bounds fused (rand st.randPos) md ml e hu.2.1 (unitFloat32_le hu) he hmd hml.le
    hsum
  have hhigh : (high : ℚ) = ((md : ℚ) + (ml : ℚ)) * 2 ^ e := by
    have : (high : ℚ) = ((high - low : Int) : ℚ) + ((low : Int) : ℚ) := by push_cast; ring
    rw [this, hd, hl]; ring
  simp only [randRange, hrd, hrl]
  refine ⟨by rw [hl]; exact hb.1, lt_of_le_of_lt hb.2 ?_⟩
  rw [hhigh]
  nlinarith

theorem nextPoint_bounds (fused : Bool) (rand : Nat → ℚ) (st : State)
    (hu : isUnitFloat32 (rand st.randPos)) (hv : isUnitFloat32 (rand (st.randPos + 1))) :
    (50 ≤ (nextPoint fused rand st).1.1 ∧ (nextPoint fused rand st).1.1 < 800) ∧
      (50 ≤ (nextPoint fused rand st).1.2 ∧ (nextPoint fused rand st).1.2 < 500) := by
  have hx := randRange_bounds fused rand maxEdge (picWidth - 2 * maxEdge) st
    12288000 819200 (-14) (by norm_num) (by norm_num) (by norm_num) (by norm_num)
    (by norm_num [maxEdge, picWidth]) (by norm_num [maxEdge]) hu
  have hy := randRange_bounds fused rand maxEdge (picHeight - 2 * maxEdge)
    (randRange fused rand maxEdge (picWidth - 2 * maxEdge) st).2
    14745600 1638400 (-15) (by norm_num) (by norm_num) (by norm_num) (by norm_num)
    (by norm_num [maxEdge, picHeight]) (by norm_num [maxEdge]) hv
  have e1 : ((maxEdge : Int) : ℚ) = 50 := by norm_num [maxEdge]
  have e2 : ((picWidth - 2 * maxEdge : Int) : ℚ) = 800 := by norm_num [maxEdge, picWidth]
  have e3 : ((picHeight - 2 * maxEdge : Int) : ℚ) = 500 := by norm_num [maxEdge, picHeight]
  rw [e1, e2] at hx
  rw [e1, e3] at hy
  exact ⟨hx, hy⟩

/-- The value of `randRange(low, high)` at the draw `1/2`, for small bounds: the
midpoint, which no rounding step changes. -/
theorem randRange_at_half (fused : Bool) (rand : Nat → ℚ) (low high : Int) (st : State)
    (h1 : |((high - low : Int) : ℚ)| < 2 ^ 24) (h2 : |((low : Int) : ℚ)| < 2 ^ 24)
    (h3 : |((high + low : Int) : ℚ)| < 2 ^ 24) (hu : rand st.randPos = 1 / 2) :
    (randRange fused rand low high st).1 = ((high + low : Int) : ℚ) / 2 := by
  have hd : roundF32 ((high - low : Int) : ℚ) = ((high - low : Int) : ℚ) := by
    have := roundF32_of_rep (high - low) 0 h1 (by norm_num)
    simpa using this
  have hl : roundF32 ((low : Int) : ℚ) = ((low : Int) : ℚ) := by
    have := roundF32_of_rep low 0 h2 (by norm_num)
    simpa using this
  have hp : roundF32 (1 / 2 * ((high - low : Int) : ℚ)) = 1 / 2 * ((high - low : Int) : ℚ) := by
    have := roundF32_of_rep (high - low) (-1) h1 (by norm_num)
    have e : ((high - low : Int) : ℚ) * 2 ^ (-1 : Int) = 1 / 2 * ((high - low : Int) : ℚ) := by
      norm_num
      ring
    rwa [e] at this
  have hs : roundF32 (((high + low : Int) : ℚ) / 2) = ((high + low : Int) : ℚ) / 2 := by
    have := roundF32_of_rep (high + low) (-1) h3 (by norm_num)
    have e : ((high + low : Int) : ℚ) * 2 ^ (-1 : Int) = ((high + low : Int) : ℚ) / 2 := by
      norm_num
      ring
    rwa [e] at this
  have e1 : 1 / 2 * ((high - low : Int) : ℚ) + ((low : Int) : ℚ)
      = ((high + low : Int) : ℚ) / 2 := by
    push_cast
    ring
  simp only [randRange, hu, hd, hl, hp, e1, hs, ite_self]

/-- C6.  For `float32` draws `u, v ∈ [0, 1)`, the anchor `(x, y)` that `nextPoint`
returns, computed in `float32` with the product and sum rounded separately or fused,
satisfies `maxEdge ≤ x < picWidth - 2*maxEdge` and
`maxEdge ≤ y < picHeight - 2*maxEdge`, that is `50 ≤ x < 800` and `50 ≤ y < 500`; the
exact values `50 + u*(800-50)` and `50 + v*(500-50)`, which `x` and `y` round, satisfy
the same bounds. -/
theorem nextPoint_in_band (fused : Bool) (rand : Nat → ℚ) (st : State)
    (hu : isUnitFloat32 (rand st.randPos)) (hv : isUnitFloat32 (rand (st.randPos + 1))) :
    (((maxEdge : Int) : ℚ) ≤ (nextPoint fused rand st).1.1 ∧
        (nextPoint fused rand st).1.1 < ((picWidth - 2 * maxEdge : Int) : ℚ)) ∧
      (((maxEdge : Int) : ℚ) ≤ (nextPoint fused rand st).1.2 ∧
        (nextPoint fused rand st).1.2 < ((picHeight - 2 * maxEdge : Int) : ℚ)) ∧
      (50 ≤ (nextPoint fused rand st).1.1 ∧ (nextPoint fused rand st).1.1 < 800) ∧
      (50 ≤ (nextPoint fused rand st).1.2 ∧ (nextPoint fused rand st).1.2 < 500) ∧
      (50 ≤ 50 + rand st.randPos * (800 - 50) ∧ 50 + rand st.randPos * (800 - 50) < 800) ∧
      (50 ≤ 50 + rand (st.randPos + 1) * (500 - 50) ∧
        50 + rand (st.randPos + 1) * (500 - 50) < 500) := by
  have h := nextPoint_bounds fused rand st hu hv
  have e1 : ((maxEdge : Int) : ℚ) = 50 := by norm_num [maxEdge]
  have e2 : ((picWidth - 2 * maxEdge : Int) : ℚ) = 800 := by norm_num [maxEdge, picWidth]
  have e3 : ((picHeight - 2 * maxEdge : Int) : ℚ) = 500 := by norm_num [maxEdge, picHeight]
  rw [e1, e2, e3]
  obtain ⟨-, hu0, hu1⟩ := hu
  obtain ⟨-, hv0, hv1⟩ := hv
  refine ⟨h.1, h.2, h.1, h.2, ⟨?_, ?_⟩, ⟨?_, ?_⟩⟩ <;> linarith

theorem isUnitFloat32_half : isUnitFloat32 (1 / 2) := by
  refine ⟨?_, by norm_num, by norm_num⟩
  have := roundF32_of_rep 1 (-1) (by norm_num) (by norm_num)
  have e : ((1 : Int) : ℚ) * 2 ^ (-1 : Int) = 1 / 2 := by norm_num
  rwa [e] at this

theorem nextPoint_at_half (fused : Bool) (st : State) :
    (nextPoint fused (fun _ => 1 / 2) st).1 = (425, 275) := by
  have hx := randRange_at_half fused (fun _ => 1 / 2) maxEdge (picWidth - 2 * maxEdge) st
    (by norm_num [maxEdge, picWidth]) (by norm_num [maxEdge])
    (by norm_num [maxEdge, picWidth]) rfl
  have hy := randRange_at_half fused (fun _ => 1 / 2) maxEdge (picHeight - 2 * maxEdge)
    (randRange fused (fun _ => 1 / 2) maxEdge (picWidth - 2 * maxEdge) st).2
    (by norm_num [maxEdge, picHeight]) (by norm_num [maxEdge])
    (by norm_num [maxEdge, picHeight]) rfl
  have ex : ((picWidth - 2 * maxEdge + maxEdge : Int) : ℚ) / 2 = 425 := by
    norm_num [maxEdge, picWidth]
  have ey : ((picHeight - 2 * maxEdge + maxEdge : Int) : ℚ) / 2 = 275 := by
    norm_num [maxEdge, picHeight]
  rw [ex] at hx
  rw [ey] at hy
  simp only [nextPoint, hx, hy]

theorem nextPoint_in_band_witness :
    isUnitFloat32 ((fun _ => 1 / 2 : Nat → ℚ) initState.randPos) ∧
      isUnitFloat32 ((fun _ => 1 / 2 : Nat → ℚ) (initState.randPos + 1)) ∧
      (nextPoint false (fun _ => 1 / 2) initState).1 = (425, 275) ∧
      (50 ≤ (nextPoint false (fun _ => 1 / 2) initState).1.1 ∧
        (nextPoint false (fun _ => 1 / 2) initState).1.1 < 800) ∧
      (50 ≤ (nextPoint false (fun _ => 1 / 2) initState).1.2 ∧
        (nextPoint false (fun _ => 1 / 2) initState).1.2 < 500) := by
  have h := nextPoint_in_band false (fun _ => 1 / 2) initState isUnitFloat32_half
    isUnitFloat32_half
  exact ⟨isUnitFloat32_half, isUnitFloat32_half, nextPoint_at_half false initState,
    h.2.2.1, h.2.2.2.1⟩

theorem nextPoint_range (fused : Bool) (rand : Nat → ℚ) (st : State)
    (hr : ∀ n, isUnitFloat32 (rand n)) :
    (50 ≤ (nextPoint fused rand st).1.1 ∧ (nextPoint fused rand st).1.1 < 800) ∧
      (50 ≤ (nextPoint fused rand st).1.2 ∧ (nextPoint fused rand st).1.2 < 500) :=
  nextPoint_bounds fused rand st (hr _) (hr _)


theorem randRange_size (fused : Bool) (rand : Nat → ℚ) (st : State)
    (hr : ∀ n, isUnitFloat32 (rand n)) :
    5 ≤ (randRange fused rand 5 maxEdge st).1 ∧ (randRange fused rand 5 maxEdge st).1 < 50 := by
  have h := randRange_bounds fused rand 5 maxEdge st
    11796480 1310720 (-18) (by norm_num) (by norm_num) (by norm_num) (by norm_num)
    (by norm_num [maxEdge]) (by norm_num) (hr _)
  have e1 : ((maxEdge : Int) : ℚ) = 50 := by norm_num [maxEdge]
  have e2 : (((5 : Int) : Int) : ℚ) = 5 := by norm_num
  rw [e1, e2] at h
  exact h

theorem shapeSwitch_geometry (fused : Bool) (rand : Nat → ℚ) (i : Int) (r g b x y w h : ℚ) (st : State)
    (hr : ∀ n, isUnitFloat32 (rand n))
    (hx : 50 ≤ x ∧ x < 800) (hy : 50 ≤ y ∧ y < 500)
    (hw : 5 ≤ w ∧ w < 50) (hh : 5 ≤ h ∧ h < 50) :
    ∀ o ∈ (shapeSwitch fused rand i r g b x y w h st).2.1,
      o.withinCanvas (picWidth : ℚ) (picHeight : ℚ) ∧ o.inBand := by
  have hp := nextPoint_range fused rand st hr
  obtain ⟨⟨p1, p2⟩, ⟨q1, q2⟩⟩ := hp
  obtain ⟨x1, x2⟩ := hx
  obtain ⟨y1, y2⟩ := hy
  obtain ⟨w1, w2⟩ := hw
  obtain ⟨h1, h2⟩ := hh
  have eW : ((picWidth : Int) : ℚ) = 900 := by norm_num [picWidth]
  have eH : ((picHeight : Int) : ℚ) = 600 := by norm_num [picHeight]
  rw [eW, eH]
  intro o ho
  simp only [shapeSwitch] at ho
  split_ifs at ho <;> simp at ho
  · subst ho
    simp only [Op.withinCanvas, Op.inBand]
    refine ⟨⟨⟨?_, ?_⟩, ⟨?_, ?_⟩⟩, ⟨⟨?_, ?_⟩, ⟨?_, ?_⟩⟩, ⟨⟨?_, ?_⟩, ⟨?_, ?_⟩⟩⟩ <;> linarith
  · rcases ho with ho | ho <;> subst ho
    · simp [Op.withinCanvas, Op.inBand]
    · simp only [Op.withinCanvas, Op.inBand]
      refine ⟨⟨⟨?_, ?_⟩, ⟨?_, ?_⟩⟩, ⟨⟨?_, ?_⟩, ⟨?_, ?_⟩⟩, ⟨?_, ?_⟩⟩ <;> linarith
  · rcases ho with ho | ho <;> subst ho
    · simp [Op.withinCanvas, Op.inBand]
    · simp only [Op.withinCanvas, Op.inBand]
      refine ⟨⟨⟨?_, ?_⟩, ⟨?_, ?_⟩⟩, ⟨⟨?_, ?_⟩, ⟨?_, ?_⟩⟩, ⟨⟨?_, ?_⟩, ⟨?_, ?_⟩⟩⟩ <;> linarith
  · rcases ho with ho | ho <;> subst ho
    · simp only [Op.withinCanvas, Op.inBand]
      refine ⟨⟨⟨⟨?_, ?_⟩, ⟨?_, ?_⟩⟩, ⟨⟨?_, ?_⟩, ⟨?_, ?_⟩⟩⟩,
        ⟨⟨?_, ?_⟩, ⟨?_, ?_⟩⟩, ⟨⟨?_, ?_⟩, ⟨?_, ?_⟩⟩⟩ <;> linarith
    · simp [Op.withinCanvas, Op.inBand]

theorem paintSwitch_geometry (i : Int) :
    ∀ o ∈ paintSwitch i, o.withinCanvas (picWidth : ℚ) (picHeight : ℚ) ∧ o.inBand := by
  intro o ho
  simp only [paintSwitch] at ho
  split_ifs at ho <;> simp at ho <;> subst ho <;> simp [Op.withinCanvas, Op.inBand]


/-- C8.  For every index `i` (in particular every `i ≥ 0`), every state, and `float32`
draws all in `[0, 1)`, with `randRange` computed in `float32` (product and sum
rounded separately or fused), every shape primitive issued by
`drawObject(i)` has its unrotated geometry inside the `900 × 600` canvas (rectangle
`[x, x+w] × [y, y+h]`, circle of centre `(x, y)` and radius `w`, ellipse of centre
`(x, y)` and radii `w`, `h`, both endpoints of the line within `[0, 900] × [0, 600]`),
with `50 ≤ x < 800`, `50 ≤ y < 500` and `5 ≤ w, h < 50`. -/
theorem drawObject_geometry (fused : Bool) (rand : Nat → ℚ) (i : Int) (st : State)
    (hr : ∀ n, isUnitFloat32 (rand n)) :
    ∀ o ∈ (drawObject fused rand i st).2,
      o.withinCanvas ((picWidth : Int) : ℚ) ((picHeight : Int) : ℚ) ∧
        o.withinCanvas 900 600 ∧ o.inBand := by
  have eW : ((picWidth : Int) : ℚ) = 900 := by norm_num [picWidth]
  have eH : ((picHeight : Int) : ℚ) = 600 := by norm_num [picHeight]
  have key : ∀ o ∈ (drawObject fused rand i st).2,
      o.withinCanvas ((picWidth : Int) : ℚ) ((picHeight : Int) : ℚ) ∧ o.inBand := by
    intro o ho
    have hsw := shapeSwitch_geometry fused rand i (nextColor st).1 (nextColor (nextColor st).2).1
      (nextColor (nextColor (nextColor st).2).2).1
      (nextPoint fused rand (randRange fused rand 2 5 (nextColor (nextColor (nextColor st).2).2).2).2).1.1
      (nextPoint fused rand (randRange fused rand 2 5 (nextColor (nextColor (nextColor st).2).2).2).2).1.2
      (randRange fused rand 5 maxEdge
        (nextPoint fused rand (randRange fused rand 2 5 (nextColor (nextColor (nextColor st).2).2).2).2).2).1
      (randRange fused rand 5 maxEdge (randRange fused rand 5 maxEdge
        (nextPoint fused rand (randRange fused rand 2 5
          (nextColor (nextColor (nextColor st).2).2).2).2).2).2).1
      (randRange fused rand 5 maxEdge (randRange fused rand 5 maxEdge
        (nextPoint fused rand (randRange fused rand 2 5
          (nextColor (nextColor (nextColor st).2).2).2).2).2).2).2
      hr (nextPoint_range fused rand _ hr).1 (nextPoint_range fused rand _ hr).2
      (randRange_size fused rand _ hr) (randRange_size fused rand _ hr)
    have hpt := paintSwitch_geometry i
    simp only [drawObject, drawObjectBody] at ho
    split_ifs at ho <;>
      simp only [List.mem_append, List.mem_cons, List.mem_singleton, List.not_mem_nil,
        or_false, false_or] at ho
    · rcases ho with (rfl | (rfl | rfl) | ho) | rfl
      · simp [Op.withinCanvas, Op.inBand]
      · simp [Op.withinCanvas, Op.inBand]
      · simp [Op.withinCanvas, Op.inBand]
      · exact hsw o ho
      · simp [Op.withinCanvas, Op.inBand]
    · rcases ho with (rfl | ((rfl | rfl) | ho) | ho) | rfl
      · simp [Op.withinCanvas, Op.inBand]
      · simp [Op.withinCanvas, Op.inBand]
      · simp [Op.withinCanvas, Op.inBand]
      · exact hsw o ho
      · exact hpt o ho
      · simp [Op.withinCanvas, Op.inBand]
  intro o ho
  refine ⟨(key o ho).1, ?_, (key o ho).2⟩
  have := (key o ho).1
  rwa [eW, eH] at this

theorem drawObject_at_half :
    (drawObject false (fun _ => 1 / 2) 0 initState).2 =
      [Op.Push, Op.SetRGB 64 128 192, Op.SetLineWidth (7 / 2),
        Op.DrawRectangle 425 275 (55 / 2) (55 / 2), Op.Fill, Op.Pop] := by
  have hlw : ∀ st : State, (randRange false (fun _ => 1 / 2) 2 5 st).1 = 7 / 2 := by
    intro st
    have := randRange_at_half false (fun _ => 1 / 2) 2 5 st (by norm_num) (by norm_num)
      (by norm_num) rfl
    rw [this]
    norm_num
  have hsz : ∀ st : State, (randRange false (fun _ => 1 / 2) 5 maxEdge st).1 = 55 / 2 := by
    intro st
    have := randRange_at_half false (fun _ => 1 / 2) 5 maxEdge st (by norm_num [maxEdge])
      (by norm_num) (by norm_num [maxEdge]) rfl
    rw [this]
    norm_num [maxEdge]
  have hpt := nextPoint_at_half false
  simp only [one_div] at hlw hsz hpt
  simp [drawObject, drawObjectBody, shapeSwitch, paintSwitch, nextColor, initState,
    colorTriplets]
  exact ⟨hlw _, by rw [hpt], by rw [hpt], hsz _, hsz _⟩

theorem drawObject_geometry_witness :
    (∀ n, isUnitFloat32 ((fun _ => 1 / 2 : Nat → ℚ) n)) ∧
      Op.DrawRectangle 425 275 (55 / 2) (55 / 2) ∈
        (drawObject false (fun _ => 1 / 2) 0 initState).2 ∧
      (Op.DrawRectangle 425 275 (55 / 2) (55 / 2)).withinCanvas 900 600 ∧
      (Op.DrawRectangle 425 275 (55 / 2) (55 / 2)).inBand := by
  have hr : ∀ n, isUnitFloat32 ((fun _ => 1 / 2 : Nat → ℚ) n) := fun _ => isUnitFloat32_half
  have hmem : Op.DrawRectangle 425 275 (55 / 2) (55 / 2) ∈
      (drawObject false (fun _ => 1 / 2) 0 initState).2 := by
    rw [drawObject_at_half]
    simp
  have h := drawObject_geometry false (fun _ => 1 / 2) 0 initState hr
    (Op.DrawRectangle 425 275 (55 / 2) (55 / 2)) hmem
  exact ⟨hr, hmem, h.2.1, h.2.2⟩

/-! ### Rounding is visible in `randRange`

Two evaluations of the closure at `float32` draws where exact arithmetic would give
another value. -/

/-- At the draw `u = 13421773 / 2^27` (the `float32` nearest to 0.1),
`randRange(50, 800)` with separate roundings returns exactly 125, while
`50 + u * 750` is larger than 125. -/
theorem randRange_rounds_product (st : State) (rand : Nat → ℚ)
    (hu : rand st.randPos = 13421773 / 2 ^ 27) :
    (randRange false rand 50 800 st).1 = 125 ∧ 125 < 50 + rand st.randPos * (800 - 50) := by
  have hd : roundF32 (((800 : Int) - 50 : Int) : ℚ) = 750 := by
    have := roundF32_of_rep 750 0 (by norm_num) (by norm_num)
    norm_num at this ⊢
    exact this
  have hl : roundF32 (((50 : Int) : Int) : ℚ) = 50 := by
    have := roundF32_of_rep 50 0 (by norm_num) (by norm_num)
    norm_num at this ⊢
    exact this
  have hp : roundF32 (13421773 / 2 ^ 27 * 750) = 75 := by
    apply le_antisymm
    · have := roundFloat_le_pred 24 (-149) (x := 13421773 / 2 ^ 27 * 750) 9830401 (-17)
        (by norm_num) (by norm_num) (by norm_num) (by norm_num) (by norm_num) (by norm_num)
      norm_num at this ⊢
      exact this
    · obtain ⟨k, hk⟩ := grid_of_rep 24 (-149) 75 0 (by norm_num) (by norm_num)
      have e : ((75 : Int) : ℚ) * 2 ^ (0 : Int) = 75 := by norm_num
      rw [e] at hk
      exact le_roundFloat 24 (-149) k (by norm_num) (by norm_num) (by norm_num) hk
  have hs : roundF32 (75 + 50) = 125 := by
    have := roundF32_of_rep 125 0 (by norm_num) (by norm_num)
    norm_num at this ⊢
    exact this
  refine ⟨?_, by rw [hu]; norm_num⟩
  simp only [randRange, hu, hd, hl, hp, hs, Bool.false_eq_true, if_false]

/-- At the largest draw `u = 1 - 2^(-24)`, `randRange(2, 5)` with separate roundings
returns exactly 5: the product rounds to `3 - 2^(-22)` and the sum `5 - 2^(-22)` is a
tie that rounds to the even neighbour 5.  The upper end of the line-width range is
attained. -/
theorem randRange_reaches_high (st : State) (rand : Nat → ℚ)
    (hu : rand st.randPos = 1 - 1 / 2 ^ 24) :
    isUnitFloat32 (rand st.randPos) ∧ (randRange false rand 2 5 st).1 = 5 := by
  have hunit : isUnitFloat32 (1 - 1 / 2 ^ 24) := by
    refine ⟨?_, by norm_num, by norm_num⟩
    have := roundF32_of_rep 16777215 (-24) (by norm_num) (by norm_num)
    have e : ((16777215 : Int) : ℚ) * 2 ^ (-24 : Int) = 1 - 1 / 2 ^ 24 := by norm_num
    rwa [e] at this
  have hd : roundF32 (((5 : Int) - 2 : Int) : ℚ) = 3 := by
    have := roundF32_of_rep 3 0 (by norm_num) (by norm_num)
    norm_num at this ⊢
    exact this
  have hl : roundF32 (((2 : Int) : Int) : ℚ) = 2 := by
    have := roundF32_of_rep 2 0 (by norm_num) (by norm_num)
    norm_num at this ⊢
    exact this
  have hp : roundF32 ((1 - 1 / 2 ^ 24) * 3) = 3 - 1 / 2 ^ 22 := by
    apply le_antisymm
    · have := roundFloat_le_pred 24 (-149) (x := (1 - 1 / 2 ^ 24) * 3) 12582912 (-22)
        (by norm_num) (by norm_num) (by norm_num) (by norm_num) (by norm_num) (by norm_num)
      norm_num at this ⊢
      exact this
    · obtain ⟨k, hk⟩ := grid_of_rep 24 (-149) 12582911 (-22) (by norm_num) (by norm_num)
      have e : ((12582911 : Int) : ℚ) * 2 ^ (-22 : Int) = 3 - 1 / 2 ^ 22 := by norm_num
      rw [e] at hk
      exact le_roundFloat 24 (-149) k (by norm_num) (by norm_num) (by norm_num) hk
  have hs : roundF32 (3 - 1 / 2 ^ 22 + 2) = 5 := by
    have hulp : ulpExp 24 (-149) (3 - 1 / 2 ^ 22 + 2) = -21 :=
      ulpExp_of_significand 24 (-149) (by norm_num) (by norm_num) (2 ^ 23) (2 ^ 24)
        (by norm_num) (by norm_num) (by norm_num) (by norm_num)
    have hq : (3 - 1 / 2 ^ 22 + 2 : ℚ) / 2 ^ (-21 : Int) = 10485759 + 1 / 2 := by norm_num
    have hfl : ⌊(10485759 + 1 / 2 : ℚ)⌋ = 10485759 := by
      rw [Int.floor_eq_iff]
      constructor <;> norm_num
    have hr : roundHalfEven (10485759 + 1 / 2) = 10485760 := by
      unfold roundHalfEven
      simp only [hfl]
      norm_num
    unfold roundF32 roundFloat
    rw [hulp, hq, hr]
    norm_num
  refine ⟨by rw [hu]; exact hunit, ?_⟩
  simp only [randRange, hu, hd, hl, hp, hs, Bool.false_eq_true, if_false]


/-! ## The state stack -/

theorem shapeSwitch_no_stack (fused : Bool) (rand : Nat → ℚ) (i : Int) (r g b x y w h : ℚ) (st : State) :
    ∀ o ∈ (shapeSwitch fused rand i r g b x y w h st).2.1, o.isStack = false := by
  intro o ho
  simp only [shapeSwitch] at ho
  split_ifs at ho <;> simp at ho
  · subst ho; rfl
  · rcases ho with rfl | rfl <;> rfl
  · rcases ho with rfl | rfl <;> rfl
  · rcases ho with rfl | rfl <;> rfl

theorem paintSwitch_no_stack (i : Int) : ∀ o ∈ paintSwitch i, o.isStack = false := by
  intro o ho
  simp only [paintSwitch] at ho
  split_ifs at ho <;> simp at ho <;> subst ho <;> rfl

theorem drawObjectBody_no_stack (fused : Bool) (rand : Nat → ℚ) (i : Int) (st : State) :
    ∀ o ∈ (drawObjectBody fused rand i st).2, o.isStack = false := by
  intro o ho
  simp only [drawObjectBody] at ho
  split_ifs at ho <;>
    simp only [List.mem_append, List.mem_cons, List.mem_singleton, List.not_mem_nil,
      or_false, false_or] at ho
  · rcases ho with (rfl | rfl) | ho
    · rfl
    · rfl
    · exact shapeSwitch_no_stack _ _ _ _ _ _ _ _ _ _ _ o ho
  · rcases ho with ((rfl | rfl) | ho) | ho
    · rfl
    · rfl
    · exact shapeSwitch_no_stack _ _ _ _ _ _ _ _ _ _ _ o ho
    · exact paintSwitch_no_stack i o ho

theorem Canvas.run_append (c : Canvas) (xs ys : List Op) :
    c.run (xs ++ ys) = (c.run xs).bind (fun c1 => c1.run ys) := by
  induction xs generalizing c with
  | nil => simp [Canvas.run]
  | cons o xs ih =>
    simp only [List.cons_append, Canvas.run]
    cases h : c.apply o with
    | none => simp
    | some c1 => simp [ih]

theorem Canvas.apply_no_stack (c : Canvas) (o : Op) (ho : o.isStack = false) :
    ∃ c1, c.apply o = some c1 ∧ c1.stack = c.stack := by
  cases o <;> simp [Op.isStack] at ho <;> simp [Canvas.apply]

theorem Canvas.run_no_stack (ops : List Op) (c : Canvas)
    (h : ∀ o ∈ ops, o.isStack = false) :
    ∃ c1, c.run ops = some c1 ∧ c1.stack = c.stack := by
  induction ops generalizing c with
  | nil => exact ⟨c, rfl, rfl⟩
  | cons o ops ih =>
    obtain ⟨c1, h1, s1⟩ := Canvas.apply_no_stack c o (h o (List.mem_cons_self _ _))
    obtain ⟨c2, h2, s2⟩ := ih c1 (fun o1 ho1 => h o1 (List.mem_cons_of_mem _ ho1))
    exact ⟨c2, by simp [Canvas.run, h1, h2], by rw [s2, s1]⟩

/-- C7.  For every index `i`, state and random stream, `drawObject(i)` issues `Push`
exactly once, as its first call, and `Pop` exactly once, as its last call, also when
the line case returns early; run on any drawing context, the calls succeed and leave
the state stack and the paint state (colour, line width, transform, font) as they
were before the call. -/
theorem drawObject_push_pop (fused : Bool) (rand : Nat → ℚ) (i : Int) (st : State) (c : Canvas) :
    (drawObject fused rand i st).2.head? = some Op.Push ∧
      (drawObject fused rand i st).2.getLast? = some Op.Pop ∧
      (drawObject fused rand i st).2.count Op.Push = 1 ∧
      (drawObject fused rand i st).2.count Op.Pop = 1 ∧
      ∃ c1, c.run (drawObject fused rand i st).2 = some c1 ∧
        c1.stack = c.stack ∧ c1.paint = c.paint := by
  have hb := drawObjectBody_no_stack fused rand i st
  have hpush : (drawObjectBody fused rand i st).2.count Op.Push = 0 :=
    List.count_eq_zero.mpr (fun hm => by simpa [Op.isStack] using hb _ hm)
  have hpop : (drawObjectBody fused rand i st).2.count Op.Pop = 0 :=
    List.count_eq_zero.mpr (fun hm => by simpa [Op.isStack] using hb _ hm)
  have hlast : (drawObject fused rand i st).2.getLast? = some Op.Pop := by
    have e : (drawObject fused rand i st).2 = (Op.Push :: (drawObjectBody fused rand i st).2) ++ [Op.Pop] :=
      rfl
    rw [e, List.getLast?_append]
    rfl
  refine ⟨by simp [drawObject], hlast, ?_, ?_, ?_⟩
  · simp [drawObject, List.count_cons, hpush]
  · simp [drawObject, List.count_cons, hpop]
  · obtain ⟨c1, h1, s1⟩ := Canvas.run_no_stack (drawObjectBody fused rand i st).2
      { c with stack := c.paint :: c.stack } hb
    refine ⟨{ c1 with paint := c.paint, stack := c.stack }, ?_, rfl, rfl⟩
    have e : (drawObject fused rand i st).2 = Op.Push :: ((drawObjectBody fused rand i st).2 ++ [Op.Pop]) :=
      rfl
    rw [e]
    simp only [Canvas.run, Canvas.apply, Option.some_bind]
    rw [Canvas.run_append, h1]
    simp only [Option.some_bind, Canvas.run, Canvas.apply]
    rw [s1]
    rfl


/-! ## Colours -/

theorem colorTriplets_range : ∀ v ∈ colorTriplets, 64 ≤ v ∧ v ≤ 255 := by
  simp only [colorTriplets, List.forall_mem_cons, List.not_mem_nil, false_imp_iff,
    implies_true, and_true]
  norm_num

theorem nextColor_range (st : State) : 64 ≤ (nextColor st).1 ∧ (nextColor st).1 ≤ 255 :=
  colorTriplets_range _ (List.get_mem _ _ _)

theorem shapeSwitch_colorIndex (fused : Bool) (rand : Nat → ℚ) (i : Int) (r g b x y w h : ℚ) (st : State) :
    (shapeSwitch fused rand i r g b x y w h st).1.colorIndex = st.colorIndex := by
  simp only [shapeSwitch]
  split_ifs <;> rfl

theorem drawObject_colorIndex (fused : Bool) (rand : Nat → ℚ) (i : Int) (st : State) :
    (drawObject fused rand i st).1.colorIndex =
      (nextColor (nextColor (nextColor st).2).2).2.colorIndex := by
  simp only [drawObject, drawObjectBody]
  split_ifs <;> rw [shapeSwitch_colorIndex] <;> rfl

theorem drawObject_rgb (fused : Bool) (rand : Nat → ℚ) (i : Int) (st : State) :
    ((drawObject fused rand i st).2.filterMap Op.rgb).head? =
        some ((nextColor st).1, (nextColor (nextColor st).2).1,
          (nextColor (nextColor (nextColor st).2).2).1) ∧
      ∀ c ∈ (drawObject fused rand i st).2.filterMap Op.rgb,
        c = ((nextColor st).1, (nextColor (nextColor st).2).1,
          (nextColor (nextColor (nextColor st).2).2).1) := by
  simp only [drawObject, drawObjectBody, shapeSwitch, paintSwitch]
  split_ifs <;> simp [Op.rgb, List.filterMap_cons]

theorem drawLoop_succ (fused : Bool) (rand : Nat → ℚ) (n : Nat) :
    drawLoop fused rand (n + 1) = loopStep fused rand (drawLoop fused rand n) n := by
  simp [drawLoop, List.range_succ, List.foldl_append]


theorem drawObject_channels (fused : Bool) (rand : Nat → ℚ) (i : Int) (st : State) :
    ∀ o ∈ (drawObject fused rand i st).2, o.channelsIn 0 255 := by
  intro o ho c hc
  have hmem : c ∈ (drawObject fused rand i st).2.filterMap Op.rgb :=
    List.mem_filterMap.mpr ⟨o, ho, hc⟩
  have hr := nextColor_range st
  have hg := nextColor_range (nextColor st).2
  have hb := nextColor_range (nextColor (nextColor st).2).2
  rw [(drawObject_rgb fused rand i st).2 c hmem]
  refine ⟨⟨?_, hr.2⟩, ⟨?_, hg.2⟩, ⟨?_, hb.2⟩⟩ <;> simp only <;> linarith

theorem drawLoop_channels (fused : Bool) (rand : Nat → ℚ) (n : Nat) :
    ∀ o ∈ (drawLoop fused rand n).2, o.channelsIn 0 255 := by
  induction n with
  | zero => simp [drawLoop]
  | succ n ih =>
    intro o ho
    rw [drawLoop_succ] at ho
    simp only [loopStep, List.mem_append] at ho
    rcases ho with ho | ho
    · exact ih o ho
    · exact drawObject_channels fused rand _ _ o ho

/-- C9, refuted as stated.  The caption colour set by `DrawPicture` is
`SetRGB(127, 0, 127)`, and object 0 sets `SetRGB(64, 128, 192)`: the channel values
are on the 0..255 scale, not in `[0, 1]`. -/
theorem DrawPicture_channels_not_unit :
    Op.SetRGB 127 0 127 ∈ DrawPicture false (fun _ => 1 / 2) "random.png" 1 ∧
      ¬ (Op.SetRGB 127 0 127).channelsIn 0 1 ∧
      Op.SetRGB 64 128 192 ∈ DrawPicture false (fun _ => 1 / 2) "random.png" 1 ∧
      ¬ (Op.SetRGB 64 128 192).channelsIn 0 1 ∧
      ¬ (∀ o ∈ DrawPicture false (fun _ => 1 / 2) "random.png" 1, o.channelsIn 0 1) := by
  have h1 : Op.SetRGB 127 0 127 ∈ DrawPicture false (fun _ => 1 / 2) "random.png" 1 := by
    simp [DrawPicture]
  have h2 : ¬ (Op.SetRGB 127 0 127).channelsIn 0 1 := by
    simp only [Op.channelsIn, Op.rgb, Option.mem_def, Option.some.injEq, forall_eq']
    norm_num
  have h3 : Op.SetRGB 64 128 192 ∈ DrawPicture false (fun _ => 1 / 2) "random.png" 1 := by
    simp [DrawPicture, drawLoop, List.range_succ, loopStep, drawObject, drawObjectBody,
      shapeSwitch, paintSwitch, nextColor, initState, colorTriplets]
  have h4 : ¬ (Op.SetRGB 64 128 192).channelsIn 0 1 := by
    simp only [Op.channelsIn, Op.rgb, Option.mem_def, Option.some.injEq, forall_eq']
    norm_num
  exact ⟨h1, h2, h3, h4, fun h => h2 (h _ h1)⟩

/-- C9, amended.  Every `r`, `g`, `b` value the program sets on the canvas, namely the
caption colour and, for every object, the three palette values passed to `SetRGB`
and `SetRGBA`, lies in the interval `[0, 255]`, for every object count and random
stream. -/
theorem DrawPicture_channels (fused : Bool) (rand : Nat → ℚ) (pngPath : String) (numObj : Int) :
    ∀ o ∈ DrawPicture fused rand pngPath numObj, o.channelsIn 0 255 := by
  intro o ho
  simp only [DrawPicture, List.mem_append, List.mem_cons, List.mem_singleton,
    List.not_mem_nil, or_false] at ho
  rcases ho with ((rfl | rfl | rfl) | ho) | rfl
  · simp [Op.channelsIn, Op.rgb]
  · simp only [Op.channelsIn, Op.rgb, Option.mem_def, Option.some.injEq, forall_eq']
    norm_num
  · simp [Op.channelsIn, Op.rgb]
  · exact drawLoop_channels fused rand _ o ho
  · simp [Op.channelsIn, Op.rgb]

theorem DrawPicture_channels_witness :
    Op.SetRGB 127 0 127 ∈ DrawPicture false (fun _ => 1 / 2) "random.png" 1 ∧
      (Op.SetRGB 127 0 127).channelsIn 0 255 :=
  ⟨by simp [DrawPicture],
    DrawPicture_channels false (fun _ => 1 / 2) "random.png" 1 (Op.SetRGB 127 0 127)
      (by simp [DrawPicture])⟩


/-! ## Colour triplets across the object loop -/

theorem drawLoop_cursor (fused : Bool) (rand : Nat → ℚ) (n : Nat) :
    (drawLoop fused rand n).1.colorIndex % 63 = (3 * n) % 63 := by
  induction n with
  | zero => simp [drawLoop, initState]
  | succ n ih =>
    rw [drawLoop_succ]
    simp only [loopStep]
    rw [drawObject_colorIndex, nextColor_colorIndex, nextColor_colorIndex, nextColor_colorIndex]
    omega

theorem drawLoop_trace_split (fused : Bool) (rand : Nat → ℚ) (N i : Nat) (hi : i < N) :
    ∃ rest, (drawLoop fused rand N).2 =
      (drawLoop fused rand i).2 ++ (drawObject fused rand (i : Int) (drawLoop fused rand i).1).2 ++ rest := by
  induction N with
  | zero => omega
  | succ N ih =>
    rw [drawLoop_succ]
    simp only [loopStep]
    rcases Nat.lt_succ_iff_lt_or_eq.mp hi with h | h
    · obtain ⟨rest, hrest⟩ := ih h
      exact ⟨rest ++ (drawObject fused rand (N : Int) (drawLoop fused rand N).1).2, by
        rw [hrest]; simp⟩
    · subst h
      exact ⟨[], by simp⟩

/-- C10.  For every object count `N`, every index `i` with `0 ≤ i < N` and every random
stream, in the run of `DrawPicture` object `i` is drawn from a palette cursor
congruent to `3 * (i mod 21)` modulo 63 and leaves it at `3 * (i mod 21) + 3`: it
consumes exactly three palette values, and every colour it sets (`SetRGB`, and
`SetRGBA` for circles) is the aligned triplet `colorTriplets[3 * (i mod 21)]`,
`colorTriplets[3 * (i mod 21) + 1]`, `colorTriplets[3 * (i mod 21) + 2]`; so no colour
straddles a triplet boundary and the colours repeat with period 21 objects. -/
theorem drawLoop_aligned_triplet (fused : Bool) (rand : Nat → ℚ) (N i : Nat) (hi : i < N) :
    (∃ rest, (drawLoop fused rand N).2 =
        (drawLoop fused rand i).2 ++ (drawObject fused rand (i : Int) (drawLoop fused rand i).1).2 ++ rest) ∧
      (drawLoop fused rand i).1.colorIndex % 63 = 3 * (i % 21) ∧
      (drawObject fused rand (i : Int) (drawLoop fused rand i).1).1.colorIndex = 3 * (i % 21) + 3 ∧
      ∃ r g b, colorTriplets[3 * (i % 21)]? = some r ∧
        colorTriplets[3 * (i % 21) + 1]? = some g ∧
        colorTriplets[3 * (i % 21) + 2]? = some b ∧
        ((drawObject fused rand (i : Int) (drawLoop fused rand i).1).2.filterMap Op.rgb).head?
          = some (r, g, b) ∧
        ∀ c ∈ (drawObject fused rand (i : Int) (drawLoop fused rand i).1).2.filterMap Op.rgb,
          c = (r, g, b) := by
  have hcur : (drawLoop fused rand i).1.colorIndex % 63 = 3 * (i % 21) := by
    rw [drawLoop_cursor]; omega
  have hrgb := drawObject_rgb fused rand (i : Int) (drawLoop fused rand i).1
  refine ⟨drawLoop_trace_split fused rand N i hi, hcur, ?_, _, _, _, ?_, ?_, ?_, hrgb.1, hrgb.2⟩
  · rw [drawObject_colorIndex, nextColor_colorIndex, nextColor_colorIndex,
      nextColor_colorIndex]
    omega
  · rw [← nextColor_fst, hcur]
  · rw [← nextColor_fst, nextColor_colorIndex, hcur]
    congr 1
    omega
  · rw [← nextColor_fst, nextColor_colorIndex, nextColor_colorIndex, hcur]
    congr 1
    omega

theorem drawLoop_aligned_triplet_witness :
    (22 : Nat) < 30 ∧
      (∃ rest, (drawLoop false (fun _ => 1 / 2) 30).2 =
        (drawLoop false (fun _ => 1 / 2) 22).2 ++
          (drawObject false (fun _ => 1 / 2) ((22 : Nat) : Int) (drawLoop false (fun _ => 1 / 2) 22).1).2
          ++ rest) ∧
      (drawLoop false (fun _ => 1 / 2) 22).1.colorIndex % 63 = 3 * (22 % 21) ∧
      (drawObject false (fun _ => 1 / 2) ((22 : Nat) : Int)
        (drawLoop false (fun _ => 1 / 2) 22).1).1.colorIndex = 3 * (22 % 21) + 3 ∧
      ∃ r g b, colorTriplets[3 * (22 % 21)]? = some r ∧
        colorTriplets[3 * (22 % 21) + 1]? = some g ∧
        colorTriplets[3 * (22 % 21) + 2]? = some b ∧
        ((drawObject false (fun _ => 1 / 2) ((22 : Nat) : Int)
          (drawLoop false (fun _ => 1 / 2) 22).1).2.filterMap Op.rgb).head? = some (r, g, b) ∧
        ∀ c ∈ (drawObject false (fun _ => 1 / 2) ((22 : Nat) : Int)
          (drawLoop false (fun _ => 1 / 2) 22).1).2.filterMap Op.rgb, c = (r, g, b) :=
  ⟨by decide, drawLoop_aligned_triplet false (fun _ => 1 / 2) 30 22 (by decide)⟩

end S2P
